import Mathlib

/-!
Verification development for the script-detection module (`src/script.rs`) of
whatlang-rs.  The Rust code is shallowly embedded: the `Script` enum, the
per-script character predicates, the ordered `SCRIPT_COUNTERS` table and the
counting algorithm of `detect_script` are translated into executable Lean
definitions.  The rayon-based parallelism of `detect_script` (an adaptive
split of the classified character stream into chunks folded independently and
then merged pairwise, plus the order-agnostic `find_any` table lookup) is
modelled by a merge tree over chunks and by a relation describing the
admissible classifications, so that every schedule of the parallel program
corresponds to one tree / one classification choice.
-/

set_option maxHeartbeats 1000000

namespace Whatlang

/-- The `Script` enum from `src/script.rs`.  The constructor order is the Rust
declaration order (kept alphabetic in the source "for C bindings"); the Rust
discriminant `script as usize` is therefore the alphabetic position. -/
inductive Script where
  | Arabic
  | Bengali
  | Cyrillic
  | Devanagari
  | Ethiopic
  | Georgian
  | Greek
  | Gujarati
  | Gurmukhi
  | Hangul
  | Hebrew
  | Hiragana
  | Kannada
  | Katakana
  | Khmer
  | Latin
  | Malayalam
  | Mandarin
  | Myanmar
  | Oriya
  | Sinhala
  | Tamil
  | Telugu
  | Thai
deriving DecidableEq

/-- The Rust discriminant of a `Script` value (`script as usize`):
its position in the declaration (alphabetic) order. -/
def Script.idx : Script → Nat
  | .Arabic => 0
  | .Bengali => 1
  | .Cyrillic => 2
  | .Devanagari => 3
  | .Ethiopic => 4
  | .Georgian => 5
  | .Greek => 6
  | .Gujarati => 7
  | .Gurmukhi => 8
  | .Hangul => 9
  | .Hebrew => 10
  | .Hiragana => 11
  | .Kannada => 12
  | .Katakana => 13
  | .Khmer => 14
  | .Latin => 15
  | .Malayalam => 16
  | .Mandarin => 17
  | .Myanmar => 18
  | .Oriya => 19
  | .Sinhala => 20
  | .Tamil => 21
  | .Telugu => 22
  | .Thai => 23

/-- `Script::name` from `src/script.rs` (match arms in source order). -/
def Script.name : Script → String
  | .Latin => "Latin"
  | .Cyrillic => "Cyrillic"
  | .Arabic => "Arabic"
  | .Devanagari => "Devanagari"
  | .Hiragana => "Hiragana"
  | .Katakana => "Katakana"
  | .Ethiopic => "Ethiopic"
  | .Hebrew => "Hebrew"
  | .Bengali => "Bengali"
  | .Georgian => "Georgian"
  | .Mandarin => "Mandarin"
  | .Hangul => "Hangul"
  | .Greek => "Greek"
  | .Kannada => "Kannada"
  | .Tamil => "Tamil"
  | .Thai => "Thai"
  | .Gujarati => "Gujarati"
  | .Gurmukhi => "Gurmukhi"
  | .Telugu => "Telugu"
  | .Malayalam => "Malayalam"
  | .Oriya => "Oriya"
  | .Myanmar => "Myanmar"
  | .Sinhala => "Sinhala"
  | .Khmer => "Khmer"

/-- The display name the spec expects: in its words, "the fixed, human-readable,
English display name for a script", equal to the script identifier.  Listed in
the enumeration (alphabetic) order of spec section 3, independently of the
source's match-arm order, for comparison with `Script.name`. -/
def specDisplayName : Script → String
  | .Arabic => "Arabic"
  | .Bengali => "Bengali"
  | .Cyrillic => "Cyrillic"
  | .Devanagari => "Devanagari"
  | .Ethiopic => "Ethiopic"
  | .Georgian => "Georgian"
  | .Greek => "Greek"
  | .Gujarati => "Gujarati"
  | .Gurmukhi => "Gurmukhi"
  | .Hangul => "Hangul"
  | .Hebrew => "Hebrew"
  | .Hiragana => "Hiragana"
  | .Kannada => "Kannada"
  | .Katakana => "Katakana"
  | .Khmer => "Khmer"
  | .Latin => "Latin"
  | .Malayalam => "Malayalam"
  | .Mandarin => "Mandarin"
  | .Myanmar => "Myanmar"
  | .Oriya => "Oriya"
  | .Sinhala => "Sinhala"
  | .Tamil => "Tamil"
  | .Telugu => "Telugu"
  | .Thai => "Thai"

/-- Inclusive code-point range check, the building block of every
`is_*` predicate in `src/script.rs` (Rust `'lo'...'hi'` patterns). -/
def inRange (c lo hi : Nat) : Bool := decide (lo ≤ c) && decide (c ≤ hi)

/-- `is_latin` from `src/script.rs`. -/
def is_latin (ch : Char) : Bool :=
  let c := ch.toNat
  inRange c 0x61 0x7A || inRange c 0x41 0x5A ||
  inRange c 0x0080 0x00FF || inRange c 0x0100 0x017F ||
  inRange c 0x0180 0x024F || inRange c 0x0250 0x02AF ||
  inRange c 0x1D00 0x1D7F || inRange c 0x1D80 0x1DBF ||
  inRange c 0x1E00 0x1EFF || inRange c 0x2100 0x214F ||
  inRange c 0x2C60 0x2C7F || inRange c 0xA720 0xA7FF ||
  inRange c 0xAB30 0xAB6F

/-- `is_cyrillic` from `src/script.rs`. -/
def is_cyrillic (ch : Char) : Bool :=
  let c := ch.toNat
  inRange c 0x0400 0x0484 || inRange c 0x0487 0x052F ||
  inRange c 0x2DE0 0x2DFF || inRange c 0xA640 0xA69D ||
  decide (c = 0x1D2B) || decide (c = 0x1D78) || decide (c = 0xA69F)

/-- `is_arabic` from `src/script.rs`. -/
def is_arabic (ch : Char) : Bool :=
  let c := ch.toNat
  inRange c 0x0600 0x06FF || inRange c 0x0750 0x07FF ||
  inRange c 0x08A0 0x08FF || inRange c 0xFB50 0xFDFF ||
  inRange c 0xFE70 0xFEFF || inRange c 0x10E60 0x10E7F ||
  inRange c 0x1EE00 0x1EEFF

/-- `is_devanagari` from `src/script.rs`. -/
def is_devanagari (ch : Char) : Bool :=
  let c := ch.toNat
  inRange c 0x0900 0x097F || inRange c 0xA8E0 0xA8FF || inRange c 0x1CD0 0x1CFF

/-- `is_ethiopic` from `src/script.rs`. -/
def is_ethiopic (ch : Char) : Bool :=
  let c := ch.toNat
  inRange c 0x1200 0x139F || inRange c 0x2D80 0x2DDF || inRange c 0xAB00 0xAB2F

/-- `is_hebrew` from `src/script.rs`. -/
def is_hebrew (ch : Char) : Bool :=
  inRange ch.toNat 0x0590 0x05FF

/-- `is_georgian` from `src/script.rs`. -/
def is_georgian (ch : Char) : Bool :=
  inRange ch.toNat 0x10A0 0x10FF

/-- `is_mandarin` from `src/script.rs`. -/
def is_mandarin (ch : Char) : Bool :=
  let c := ch.toNat
  inRange c 0x2E80 0x2E99 || inRange c 0x2E9B 0x2EF3 ||
  inRange c 0x2F00 0x2FD5 || decide (c = 0x3005) || decide (c = 0x3007) ||
  inRange c 0x3021 0x3029 || inRange c 0x3038 0x303B ||
  inRange c 0x3400 0x4DB5 || inRange c 0x4E00 0x9FCC ||
  inRange c 0xF900 0xFA6D || inRange c 0xFA70 0xFAD9

/-- `is_bengali` from `src/script.rs`. -/
def is_bengali (ch : Char) : Bool :=
  inRange ch.toNat 0x0980 0x09FF

/-- `is_hiragana` from `src/script.rs`. -/
def is_hiragana (ch : Char) : Bool :=
  inRange ch.toNat 0x3040 0x309F

/-- `is_katakana` from `src/script.rs`. -/
def is_katakana (ch : Char) : Bool :=
  inRange ch.toNat 0x30A0 0x30FF

/-- `is_hangul` from `src/script.rs`. -/
def is_hangul (ch : Char) : Bool :=
  let c := ch.toNat
  inRange c 0xAC00 0xD7AF || inRange c 0x1100 0x11FF ||
  inRange c 0x3130 0x318F || inRange c 0x3200 0x32FF ||
  inRange c 0xA960 0xA97F || inRange c 0xD7B0 0xD7FF ||
  inRange c 0xFF00 0xFFEF

/-- `is_greek` from `src/script.rs`. -/
def is_greek (ch : Char) : Bool :=
  inRange ch.toNat 0x0370 0x03FF

/-- `is_kannada` from `src/script.rs`. -/
def is_kannada (ch : Char) : Bool :=
  inRange ch.toNat 0x0C80 0x0CFF

/-- `is_tamil` from `src/script.rs`. -/
def is_tamil (ch : Char) : Bool :=
  inRange ch.toNat 0x0B80 0x0BFF

/-- `is_thai` from `src/script.rs`. -/
def is_thai (ch : Char) : Bool :=
  inRange ch.toNat 0x0E00 0x0E7F

/-- `is_gujarati` from `src/script.rs`. -/
def is_gujarati (ch : Char) : Bool :=
  inRange ch.toNat 0x0A80 0x0AFF

/-- `is_gurmukhi` from `src/script.rs`. -/
def is_gurmukhi (ch : Char) : Bool :=
  inRange ch.toNat 0x0A00 0x0A7F

/-- `is_telugu` from `src/script.rs`. -/
def is_telugu (ch : Char) : Bool :=
  inRange ch.toNat 0x0C00 0x0C7F

/-- `is_malayalam` from `src/script.rs`. -/
def is_malayalam (ch : Char) : Bool :=
  inRange ch.toNat 0x0D00 0x0D7F

/-- `is_oriya` from `src/script.rs`. -/
def is_oriya (ch : Char) : Bool :=
  inRange ch.toNat 0x0B00 0x0B7F

/-- `is_myanmar` from `src/script.rs`. -/
def is_myanmar (ch : Char) : Bool :=
  inRange ch.toNat 0x1000 0x109F

/-- `is_sinhala` from `src/script.rs`. -/
def is_sinhala (ch : Char) : Bool :=
  inRange ch.toNat 0x0D80 0x0DFF

/-- `is_khmer` from `src/script.rs`. -/
def is_khmer (ch : Char) : Bool :=
  inRange ch.toNat 0x1780 0x17FF || inRange ch.toNat 0x19E0 0x19FF

/-- Modelled from the spec: the predicate `utils::is_stop_char` is imported
from a module (`utils`) that is not part of the provided sources.  Per the
spec (section 3 and the Glossary) a stop character is "a character ignored for
script classification (whitespace, digits, common punctuation)".  We model it
as ASCII whitespace, ASCII digits and ASCII punctuation.  No script predicate
of `src/script.rs` matches any of these code points, so a character in this
set is excluded from the tallies under any reading of "common punctuation". -/
def is_stop_char (ch : Char) : Bool :=
  ch.isWhitespace || ch.isDigit ||
  inRange ch.toNat 0x21 0x2F || inRange ch.toNat 0x3A 0x40 ||
  inRange ch.toNat 0x5B 0x60 || inRange ch.toNat 0x7B 0x7E

/-- The `SCRIPT_COUNTERS` table from `detect_script` in `src/script.rs`,
in its source (detection) order. -/
def SCRIPT_COUNTERS : List (Script × (Char → Bool)) :=
  [ (Script.Latin      , is_latin     ),
    (Script.Cyrillic   , is_cyrillic  ),
    (Script.Arabic     , is_arabic    ),
    (Script.Mandarin   , is_mandarin  ),
    (Script.Devanagari , is_devanagari),
    (Script.Hebrew     , is_hebrew    ),
    (Script.Ethiopic   , is_ethiopic  ),
    (Script.Georgian   , is_georgian  ),
    (Script.Bengali    , is_bengali   ),
    (Script.Hangul     , is_hangul    ),
    (Script.Hiragana   , is_hiragana  ),
    (Script.Katakana   , is_katakana  ),
    (Script.Greek      , is_greek     ),
    (Script.Kannada    , is_kannada   ),
    (Script.Tamil      , is_tamil     ),
    (Script.Thai       , is_thai      ),
    (Script.Gujarati   , is_gujarati  ),
    (Script.Gurmukhi   , is_gurmukhi  ),
    (Script.Telugu     , is_telugu    ),
    (Script.Malayalam  , is_malayalam ),
    (Script.Oriya      , is_oriya     ),
    (Script.Myanmar    , is_myanmar   ),
    (Script.Sinhala    , is_sinhala   ),
    (Script.Khmer      , is_khmer     ) ]

/-- Length of the counter table (`SCRIPT_COUNTERS.len()` in the source,
the length of the count vector `vec![0; SCRIPT_COUNTERS.len()]`). -/
def NSCRIPTS : Nat := SCRIPT_COUNTERS.length

/-- `SCRIPT_COUNTERS[i].0` (Rust indexing).  Every use site in the source has
`i` bounded by the count-vector length, which equals the table length, so the
default of `getD` is unreachable (Rust would panic there). -/
def tableScript (i : Nat) : Script :=
  ((SCRIPT_COUNTERS.get? i).map Prod.fst).getD Script.Latin

/-- All table entries whose predicate accepts `ch`, in table order.  Rayon's
`find_any` on `SCRIPT_COUNTERS.par_iter()` may return any element of this
list (its contract does not promise the first match). -/
def scriptsMatching (ch : Char) : List Script :=
  (SCRIPT_COUNTERS.filter (fun e => e.2 ch)).map Prod.fst

/-- The sequential specialization of the table lookup: the first entry whose
predicate accepts `ch` (what `find_any` returns when the table iterator is
not split). -/
def firstMatch (ch : Char) : Option Script :=
  (SCRIPT_COUNTERS.find? (fun e => e.2 ch)).map Prod.fst


/-- The all-zero count vector, `vec![0; SCRIPT_COUNTERS.len()]`: the identity
element of both `try_fold` and `try_reduce`.  Count vectors are modelled as
functions from slot index to count; the source only ever reads slots below
`NSCRIPTS`. -/
def zeros : Nat → Nat := fun _ => 0

/-- One step of the `try_fold` closure in `detect_script`: increment the slot
`script as usize`, then return `Err(script)` if the incremented slot exceeds
`half` (the "use Err as an early return" in the source). -/
def foldStep (half : Nat) (counts : Nat → Nat) (s : Script) : Except Script (Nat → Nat) :=
  let c := counts s.idx + 1
  if half < c then .error s
  else .ok (fun j => if j = s.idx then c else counts j)

/-- The `try_fold` loop of `detect_script` over one chunk of the classified
stream, starting from the accumulator `counts`. -/
def foldChunk (half : Nat) (counts : Nat → Nat) : List Script → Except Script (Nat → Nat)
  | [] => .ok counts
  | s :: rest =>
      match foldStep half counts s with
      | .error e => .error e
      | .ok counts2 => foldChunk half counts2 rest

/-- The `try_reduce` combiner of `detect_script`: add the two count vectors
slot by slot in index order and abort with `Err(SCRIPT_COUNTERS[i].0)` at the
first slot `i` whose combined count exceeds `half`.  Note that the source
reads the overflowing slot index `i` (a position in the count vector, i.e. an
enum discriminant) back through the table `SCRIPT_COUNTERS`. -/
def mergeCounts (half : Nat) (c1 c2 : Nat → Nat) : Except Script (Nat → Nat) :=
  match (List.range NSCRIPTS).find? (fun i => decide (half < c1 i + c2 i)) with
  | some i => .error (tableScript i)
  | none => .ok (fun j => if j < NSCRIPTS then c1 j + c2 j else c1 j)

/-- A shape of one parallel execution: rayon's `try_fold` folds each chunk of
the classified stream independently and `try_reduce` combines the chunk
results pairwise in some order-preserving tree.  A leaf is one folded chunk;
a node is one `try_reduce` combination. -/
inductive MergeTree where
  | leaf : List Script → MergeTree
  | node : MergeTree → MergeTree → MergeTree

/-- The classified stream a tree processes: its chunks in order. -/
def MergeTree.flatten : MergeTree → List Script
  | .leaf l => l
  | .node t1 t2 => t1.flatten ++ t2.flatten

/-- Run one execution shape: fold every leaf from a fresh zero vector, then
combine pairwise, propagating the first `Err` (an `Err` from any branch
aborts the whole reduction in the source; which one surfaces is
scheduling-dependent, and this model keeps the left one). -/
def MergeTree.run (half : Nat) : MergeTree → Except Script (Nat → Nat)
  | .leaf l => foldChunk half zeros l
  | .node t1 t2 =>
      match t1.run half, t2.run half with
      | .error s, _ => .error s
      | .ok _, .error s => .error s
      | .ok c1, .ok c2 => mergeCounts half c1 c2

/-- One step of Rust's `max_by_key` over `counts.into_iter().enumerate()`:
keep the new index when its count is greater or equal (so that on ties the
last maximal element wins, as `max_by_key` documents). -/
def maxStep (counts : Nat → Nat) (acc : Option Nat) (i : Nat) : Option Nat :=
  match acc with
  | none => some i
  | some j => if counts j ≤ counts i then some i else some j

/-- `counts.into_iter().enumerate().max_by_key(|&(_, count)| count)` from the
final selection of `detect_script`: the index of the last maximal slot. -/
def maxIdxLast (counts : Nat → Nat) : Option Nat :=
  (List.range NSCRIPTS).foldl (maxStep counts) none

/-- The final `match counts` of `detect_script`, given the already computed
`half` threshold: an early `Err(script)` becomes `Some(script)`; a fully
merged vector is resolved by `max_by_key` and the winning slot index is read
back through `SCRIPT_COUNTERS`. -/
def runTreeH (half : Nat) (t : MergeTree) : Option Script :=
  match t.run half with
  | .error s => some s
  | .ok counts => (maxIdxLast counts).map tableScript

/-- One execution of `detect_script` on `text` with execution shape `t`:
`half` is computed once, from the length of the whole text, before any
filtering. -/
def runTree (text : List Char) (t : MergeTree) : Option Script :=
  runTreeH (text.length / 2) t

/-- The sequential specialization of the per-character classification:
`filter_map` with the first matching table entry. -/
def classify (cs : List Char) : List Script :=
  cs.filterMap firstMatch

/-- `detect_script` from `src/script.rs`, in its sequential specialization:
one chunk, first-match classification.  (The parallel executions are
quantified by `DetectExec` below.) -/
def detect_script (text : List Char) : Option Script :=
  runTree text (MergeTree.leaf (classify (text.filter (fun c => !is_stop_char c))))

/-- The classified stream produced from the non-stop characters by rayon's
`filter_map` with `find_any`: each character either matches no table entry
and is dropped, or contributes one of its matching entries — `find_any` is
free to return any of them. -/
inductive ClassifiedRel : List Char → List Script → Prop where
  | nil : ClassifiedRel [] []
  | skip {c : Char} {cs : List Char} {l : List Script} :
      scriptsMatching c = [] → ClassifiedRel cs l → ClassifiedRel (c :: cs) l
  | take {c : Char} {cs : List Char} {s : Script} {l : List Script} :
      s ∈ scriptsMatching c → ClassifiedRel cs l → ClassifiedRel (c :: cs) (s :: l)

/-- `r` is a possible result of `detect_script text`: some admissible
classification of the non-stop characters, chunked and merged in some shape,
produces `r`. -/
def DetectExec (text : List Char) (r : Option Script) : Prop :=
  ∃ t : MergeTree,
    ClassifiedRel (text.filter (fun c => !is_stop_char c)) t.flatten ∧
    runTree text t = r

/-- Whether an `Except` fold/merge result is `Ok` (no early exit). -/
def isOkE (e : Except Script (Nat → Nat)) : Bool :=
  match e with
  | .ok _ => true
  | .error _ => false

/-- The count vector of an `Ok` fold/merge result. -/
def okCounts (e : Except Script (Nat → Nat)) : Nat → Nat :=
  match e with
  | .ok c => c
  | .error _ => zeros

/-- The tally of the classified stream `l`: how many elements fell into each
slot of the count vector (slots are enum discriminants, `Script.idx`). -/
def tallyVec : List Script → Nat → Nat
  | [], _ => 0
  | s :: rest, j => (if j = s.idx then 1 else 0) + tallyVec rest j

/-- Sum of the (meaningful) slots of a count vector. -/
def sumCounts (counts : Nat → Nat) : Nat :=
  ((List.range NSCRIPTS).map counts).sum


/-! ### General lemmas about the model -/

lemma script_idx_lt (s : Script) : s.idx < NSCRIPTS := by
  cases s <;> decide

lemma tallyVec_append (l1 l2 : List Script) (j : Nat) :
    tallyVec (l1 ++ l2) j = tallyVec l1 j + tallyVec l2 j := by
  induction l1 with
  | nil => simp [tallyVec]
  | cons s l1 ih =>
      show (if j = s.idx then 1 else 0) + tallyVec (l1 ++ l2) j
          = ((if j = s.idx then 1 else 0) + tallyVec l1 j) + tallyVec l2 j
      rw [ih]
      omega

lemma tallyVec_eq_zero_of_ge (l : List Script) (j : Nat) (h : NSCRIPTS ≤ j) :
    tallyVec l j = 0 := by
  induction l with
  | nil => rfl
  | cons s l ih =>
      have hs : s.idx < NSCRIPTS := script_idx_lt s
      have : j ≠ s.idx := by omega
      simp [tallyVec, this, ih]

lemma foldChunk_ok_counts (half : Nat) :
    ∀ (p : List Script) (acc c : Nat → Nat),
      foldChunk half acc p = .ok c → ∀ j, c j = acc j + tallyVec p j := by
  intro p
  induction p with
  | nil =>
      intro acc c h j
      simp only [foldChunk, Except.ok.injEq] at h
      subst h
      simp [tallyVec]
  | cons s rest ih =>
      intro acc c h j
      by_cases hlt : half < acc s.idx + 1
      · simp [foldChunk, foldStep, hlt] at h
      · simp only [foldChunk, foldStep, hlt, if_neg] at h
        have h2 := ih _ _ h j
        rw [h2]
        by_cases hj : j = s.idx
        · subst hj; simp [tallyVec]; omega
        · simp [tallyVec, hj]

lemma mergeCounts_ok (half : Nat) (c1 c2 c : Nat → Nat)
    (h : mergeCounts half c1 c2 = .ok c) :
    c = fun j => if j < NSCRIPTS then c1 j + c2 j else c1 j := by
  unfold mergeCounts at h
  cases hf : (List.range NSCRIPTS).find? (fun i => decide (half < c1 i + c2 i)) with
  | some i => rw [hf] at h; simp at h
  | none => rw [hf] at h; simp only [Except.ok.injEq] at h; exact h.symm

lemma run_ok_counts :
    ∀ (t : MergeTree) (half : Nat) (c : Nat → Nat),
      t.run half = .ok c → c = tallyVec t.flatten := by
  intro t
  induction t with
  | leaf l =>
      intro half c h
      funext j
      have := foldChunk_ok_counts half l zeros c h j
      simpa [zeros] using this
  | node t1 t2 ih1 ih2 =>
      intro half c h
      unfold MergeTree.run at h
      cases h1 : t1.run half with
      | error s => rw [h1] at h; simp at h
      | ok c1 =>
          cases h2 : t2.run half with
          | error s => rw [h1, h2] at h; simp at h
          | ok c2 =>
              rw [h1, h2] at h
              have e1 := ih1 _ _ h1
              have e2 := ih2 _ _ h2
              have em := mergeCounts_ok half c1 c2 c h
              funext j
              rw [em]
              by_cases hj : j < NSCRIPTS
              · simp only [hj, if_pos, MergeTree.flatten, tallyVec_append, e1, e2]
              · have hge : NSCRIPTS ≤ j := Nat.le_of_not_lt hj
                simp only [hj, if_neg, not_false_iff, e1]
                rw [tallyVec_eq_zero_of_ge _ _ hge]
                rw [show MergeTree.flatten (MergeTree.node t1 t2) = t1.flatten ++ t2.flatten from rfl]
                rw [tallyVec_eq_zero_of_ge _ _ hge]

lemma sum_map_split (m : List Nat) (f g : Nat → Nat) :
    (m.map (fun j => f j + g j)).sum = (m.map f).sum + (m.map g).sum := by
  induction m with
  | nil => simp
  | cons a m ih => simp only [List.map_cons, List.sum_cons, ih]; omega

lemma sum_map_ite (x : Nat) :
    ∀ n, x < n → ((List.range n).map (fun j => if j = x then 1 else 0)).sum = 1 := by
  intro n
  induction n with
  | zero => intro h; omega
  | succ n ih =>
      intro hx
      rw [List.range_succ, List.map_append, List.sum_append]
      by_cases h : x = n
      · subst h
        have h0 : ((List.range x).map (fun j => if j = x then (1 : Nat) else 0)).sum = 0 := by
          apply List.sum_eq_zero
          intro y hy
          obtain ⟨j, hj, rfl⟩ := List.mem_map.mp hy
          have hjx : j < x := List.mem_range.mp hj
          have : j ≠ x := Nat.ne_of_lt hjx
          simp [this]
        simp [h0]
      · have hx2 : x < n := Nat.lt_of_le_of_ne (Nat.le_of_lt_succ hx) h
        have hnx : n ≠ x := fun e => h e.symm
        rw [ih hx2]
        simp [hnx]

lemma sumCounts_tallyVec : ∀ l : List Script, sumCounts (tallyVec l) = l.length := by
  intro l
  induction l with
  | nil =>
      unfold sumCounts
      rw [List.sum_eq_zero]
      · rfl
      · intro y hy
        obtain ⟨j, _, rfl⟩ := List.mem_map.mp hy
        rfl
  | cons s l ih =>
      unfold sumCounts
      have e : (List.range NSCRIPTS).map (tallyVec (s :: l))
          = (List.range NSCRIPTS).map (fun j => (if j = s.idx then 1 else 0) + tallyVec l j) := rfl
      rw [e, sum_map_split, sum_map_ite s.idx NSCRIPTS (script_idx_lt s)]
      unfold sumCounts at ih
      rw [ih]
      simp [Nat.add_comm]

lemma maxStep_isSome (counts : Nat → Nat) (acc : Option Nat) (i : Nat) :
    ∃ k, maxStep counts acc i = some k := by
  cases acc with
  | none => exact ⟨i, rfl⟩
  | some j =>
      by_cases h : counts j ≤ counts i
      · exact ⟨i, by simp [maxStep, h]⟩
      · exact ⟨j, by simp [maxStep, h]⟩

lemma maxIdxLast_isSome (counts : Nat → Nat) : ∃ k, maxIdxLast counts = some k := by
  have h24 : NSCRIPTS = 23 + 1 := rfl
  unfold maxIdxLast
  rw [h24, List.range_succ, List.foldl_append]
  simp only [List.foldl_cons, List.foldl_nil]
  exact maxStep_isSome counts _ 23

lemma runTreeH_isSome (half : Nat) (t : MergeTree) : ∃ s, runTreeH half t = some s := by
  cases h : t.run half with
  | error s => exact ⟨s, by simp [runTreeH, h]⟩
  | ok c =>
      obtain ⟨k, hk⟩ := maxIdxLast_isSome c
      exact ⟨tableScript k, by simp [runTreeH, h, hk]⟩

lemma mem_scriptsMatching_of_firstMatch {c : Char} {s : Script}
    (h : firstMatch c = some s) : s ∈ scriptsMatching c := by
  unfold firstMatch at h
  obtain ⟨e, he, h1⟩ := Option.map_eq_some'.mp h
  have hp : e.2 c = true := by
    have := List.find?_some he
    simpa using this
  have hmem : e ∈ SCRIPT_COUNTERS := List.mem_of_find?_eq_some he
  unfold scriptsMatching
  exact List.mem_map.mpr ⟨e, List.mem_filter.mpr ⟨hmem, by simpa using hp⟩, h1⟩

lemma scriptsMatching_eq_nil_of_firstMatch {c : Char}
    (h : firstMatch c = none) : scriptsMatching c = [] := by
  unfold firstMatch at h
  cases hf : SCRIPT_COUNTERS.find? (fun e => e.2 c) with
  | some e => rw [hf] at h; simp at h
  | none =>
      rw [List.find?_eq_none] at hf
      unfold scriptsMatching
      have : SCRIPT_COUNTERS.filter (fun e => e.2 c) = [] := by
        rw [List.filter_eq_nil_iff]
        exact hf
      rw [this]
      rfl

lemma firstMatch_eq_none_of_nomatch {c : Char}
    (h : scriptsMatching c = []) : firstMatch c = none := by
  cases hm : firstMatch c with
  | none => rfl
  | some s =>
      have := mem_scriptsMatching_of_firstMatch hm
      rw [h] at this
      simp at this

lemma classifiedRel_classify : ∀ cs : List Char, ClassifiedRel cs (classify cs) := by
  intro cs
  induction cs with
  | nil => exact ClassifiedRel.nil
  | cons c cs ih =>
      cases h : firstMatch c with
      | none =>
          have hm : scriptsMatching c = [] := scriptsMatching_eq_nil_of_firstMatch h
          have hcl : classify (c :: cs) = classify cs := by
            simp [classify, List.filterMap_cons, h]
          rw [hcl]
          exact ClassifiedRel.skip hm ih
      | some s =>
          have hmem : s ∈ scriptsMatching c := mem_scriptsMatching_of_firstMatch h
          have hcl : classify (c :: cs) = s :: classify cs := by
            simp [classify, List.filterMap_cons, h]
          rw [hcl]
          exact ClassifiedRel.take hmem ih

lemma classifiedRel_length {cs : List Char} {l : List Script}
    (h : ClassifiedRel cs l) : l.length ≤ cs.length := by
  induction h with
  | nil => exact Nat.le_refl 0
  | skip _ _ ih => exact Nat.le_succ_of_le ih
  | take _ _ ih => exact Nat.succ_le_succ ih

lemma classify_eq_nil_of_nomatch {cs : List Char}
    (h : ∀ c ∈ cs, scriptsMatching c = []) : classify cs = [] := by
  unfold classify
  rw [List.filterMap_eq_nil_iff]
  intro c hc
  exact firstMatch_eq_none_of_nomatch (h c hc)

lemma classifiedRel_of_classify_eq {cs : List Char} {l : List Script}
    (h : classify cs = l) : ClassifiedRel cs l :=
  h ▸ classifiedRel_classify cs

lemma length_filter_split (text : List Char) :
    (text.filter (fun c => is_stop_char c)).length
      + (text.filter (fun c => !is_stop_char c)).length = text.length := by
  induction text with
  | nil => rfl
  | cons c cs ih =>
      cases h : is_stop_char c with
      | true => simp [List.filter_cons, h]; omega
      | false => simp [List.filter_cons, h]; omega

/-- A two-chunk execution of `detect_script` on eight Latin characters: each
chunk folds to a count of four (below `half = 4`, so no fold-level early
exit), and the merge overflows at slot 15 — Latin's enum discriminant — which
the source reads back as `SCRIPT_COUNTERS[15].0 = Thai`. -/
lemma detectExec_aaaa_split :
    DetectExec (String.toList "aaaaaaaa") (some Script.Thai) := by
  refine ⟨MergeTree.node (MergeTree.leaf (List.replicate 4 Script.Latin))
      (MergeTree.leaf (List.replicate 4 Script.Latin)), ?_, ?_⟩
  · exact classifiedRel_of_classify_eq (by decide)
  · decide

/-! ### The claims -/

/-- Claim C1 (refuted; code bug): with no early exit, `detect_script` is
claimed to return the script whose slot holds the maximal final count.  The
code instead reads the maximal slot index — an enum discriminant — back
through the table-ordered `SCRIPT_COUNTERS`.  On the repository's own test
input (`src/script.rs` line 400, asserting `Some(Cyrillic)`), the run below
fires no early exit, the maximal slot is Cyrillic's (index 2, count 20), yet
the result is `SCRIPT_COUNTERS[2].0 = Arabic`; likewise `"ab12"` tallies two
Latin characters and returns Thai. -/
theorem final_selection_reads_table_order :
    detect_script (String.toList "Привет! Текст на русском with some English.")
      = some Script.Arabic
    ∧ isOkE (MergeTree.run ((String.toList "Привет! Текст на русском with some English.").length / 2)
        (MergeTree.leaf (classify ((String.toList "Привет! Текст на русском with some English.").filter
          (fun c => !is_stop_char c))))) = true
    ∧ maxIdxLast (tallyVec (classify ((String.toList "Привет! Текст на русском with some English.").filter
        (fun c => !is_stop_char c)))) = some Script.Cyrillic.idx
    ∧ detect_script (String.toList "ab12") = some Script.Thai
    ∧ Script.Arabic ≠ Script.Cyrillic ∧ Script.Thai ≠ Script.Latin := by
  exact ⟨by decide, by decide, by decide, by decide, by decide, by decide⟩

/-- Claim C2 (code bug): on the all-stop-character test input every count
stays zero, the final `max_by_key` picks the last slot (index 23) and the
code returns `SCRIPT_COUNTERS[23].0 = Some(Khmer)` — not the `None` that the
claim and the repository's own regression test (`src/script.rs` line 387)
require. -/
theorem all_stop_input_returns_khmer :
    detect_script (String.toList "1234567890-,;!") = some Script.Khmer
    ∧ detect_script (String.toList "1234567890-,;!") ≠ none := by
  exact ⟨by decide, by decide⟩

/-- Claim C3 (refuted): the character U+1D2B matches both `is_latin` (block
U+1D00–U+1D7F) and `is_cyrillic` (listed explicitly), the first matching
table entry is Latin, yet `find_any` may return the Cyrillic entry — and then
an execution of `detect_script` on that single character returns
`Some(Cyrillic)`, not the first-match script. -/
theorem find_any_overlap_counterexample :
    Script.Cyrillic ∈ scriptsMatching (Char.ofNat 0x1D2B)
    ∧ firstMatch (Char.ofNat 0x1D2B) = some Script.Latin
    ∧ DetectExec [Char.ofNat 0x1D2B] (some Script.Cyrillic)
    ∧ Script.Cyrillic ≠ Script.Latin := by
  refine ⟨by decide, by decide, ?_, by decide⟩
  refine ⟨MergeTree.leaf [Script.Cyrillic], ?_, by decide⟩
  have hf : ([Char.ofNat 0x1D2B].filter (fun c => !is_stop_char c)) = [Char.ofNat 0x1D2B] := by
    decide
  rw [hf]
  exact ClassifiedRel.take (by decide) ClassifiedRel.nil

/-- Claim C3, amended: every counted script is one whose table predicate
accepts some character of the input (`find_any` may pick any matching entry,
not necessarily the first), and characters matching no predicate contribute
nothing. -/
theorem classified_scripts_sound :
    ∀ (cs : List Char) (l : List Script), ClassifiedRel cs l →
      (∀ s ∈ l, ∃ c ∈ cs, s ∈ scriptsMatching c)
      ∧ ((∀ c ∈ cs, scriptsMatching c = []) → l = []) := by
  intro cs l h
  induction h with
  | nil => exact ⟨by simp, fun _ => rfl⟩
  | skip hm hrel ih =>
      constructor
      · intro s hs
        obtain ⟨c2, hc2, hsc⟩ := ih.1 s hs
        exact ⟨c2, List.mem_cons_of_mem _ hc2, hsc⟩
      · intro hall
        exact ih.2 (fun c2 hc2 => hall c2 (List.mem_cons_of_mem _ hc2))
  | take hmem hrel ih =>
      constructor
      · intro s2 hs2
        rcases List.mem_cons.mp hs2 with he | ht
        · subst he
          exact ⟨_, List.mem_cons_self _ _, hmem⟩
        · obtain ⟨c2, hc2, hsc⟩ := ih.1 s2 ht
          exact ⟨c2, List.mem_cons_of_mem _ hc2, hsc⟩
      · intro hall
        exfalso
        have h0 := hall _ (List.mem_cons_self _ _)
        rw [h0] at hmem
        simp at hmem

/-- Witness for the amended C3 at a concrete input. -/
theorem classified_scripts_sound_witness :
    (∀ s ∈ [Script.Latin], ∃ c ∈ ['a'], s ∈ scriptsMatching c)
    ∧ ((∀ c ∈ ['a'], scriptsMatching c = []) → [Script.Latin] = []) :=
  classified_scripts_sound ['a'] [Script.Latin]
    (ClassifiedRel.take (by decide) ClassifiedRel.nil)

/-- Claim C4 (refuted; code bug): on eight Latin characters Latin's tally (8)
strictly exceeds `half = 4`, so the claim requires `Some(Latin)` for every
execution; but the two-chunk execution returns `Some(Thai)`, because the
merge step reports the overflowing count-vector slot through
`SCRIPT_COUNTERS[i].0` with `i` an enum-order discriminant. -/
theorem majority_split_merge_returns_thai :
    DetectExec (String.toList "aaaaaaaa") (some Script.Thai)
    ∧ (String.toList "aaaaaaaa").length / 2
        < tallyVec (classify ((String.toList "aaaaaaaa").filter
            (fun c => !is_stop_char c))) Script.Latin.idx
    ∧ Script.Thai ≠ Script.Latin := by
  exact ⟨detectExec_aaaa_split, by decide, by decide⟩

/-- Claim C5 (refuted): two executions of `detect_script` on the same text —
one chunk versus two chunks, both reachable under rayon's adaptive splitting
— return different results, so the function is not deterministic across
calls. -/
theorem detect_partition_dependent :
    DetectExec (String.toList "aaaaaaaa") (some Script.Latin)
    ∧ DetectExec (String.toList "aaaaaaaa") (some Script.Thai)
    ∧ some Script.Latin ≠ some Script.Thai := by
  refine ⟨?_, detectExec_aaaa_split, by decide⟩
  exact ⟨MergeTree.leaf (List.replicate 8 Script.Latin),
    classifiedRel_of_classify_eq (by decide), by decide⟩

/-- Claim C5, amended: `detect_script` is deterministic once the schedule is
fixed, and any two executions over the same classified stream in which no
early exit fires return the same result (the fully merged vector is
partition-independent). -/
theorem full_merge_partition_independent :
    ∀ (text : List Char) (t1 t2 : MergeTree),
      MergeTree.flatten t1 = MergeTree.flatten t2 →
      isOkE (MergeTree.run (text.length / 2) t1) = true →
      isOkE (MergeTree.run (text.length / 2) t2) = true →
      runTree text t1 = runTree text t2 := by
  intro text t1 t2 hf h1 h2
  cases e1 : t1.run (text.length / 2) with
  | error s => rw [e1] at h1; simp [isOkE] at h1
  | ok c1 =>
      cases e2 : t2.run (text.length / 2) with
      | error s => rw [e2] at h2; simp [isOkE] at h2
      | ok c2 =>
          have hc1 := run_ok_counts t1 _ _ e1
          have hc2 := run_ok_counts t2 _ _ e2
          unfold runTree runTreeH
          rw [e1, e2, hc1, hc2, hf]

/-- Witness for the amended C5 at a concrete input. -/
theorem full_merge_partition_independent_witness :
    runTree (String.toList "ab12") (MergeTree.leaf [Script.Latin, Script.Latin])
      = runTree (String.toList "ab12")
          (MergeTree.node (MergeTree.leaf [Script.Latin]) (MergeTree.leaf [Script.Latin])) :=
  full_merge_partition_independent (String.toList "ab12") _ _ (by decide) (by decide) (by decide)

/-- Claim C6 (refuted; code bug): on one Cyrillic plus one Latin character the
final vector ties (count 1 in slot 2 and slot 15) with no early exit; the
claim requires the tied script that is later in table order (Cyrillic), but
the code takes the last maximal enum-order slot (15) and maps it through
`SCRIPT_COUNTERS`, returning Thai — not even one of the tied scripts. -/
theorem tie_returns_unrelated_script :
    detect_script [Char.ofNat 0x430, 'b'] = some Script.Thai
    ∧ tallyVec (classify ([Char.ofNat 0x430, 'b'].filter
        (fun c => !is_stop_char c))) Script.Cyrillic.idx = 1
    ∧ tallyVec (classify ([Char.ofNat 0x430, 'b'].filter
        (fun c => !is_stop_char c))) Script.Latin.idx = 1
    ∧ Script.Thai ≠ Script.Cyrillic ∧ Script.Thai ≠ Script.Latin := by
  exact ⟨by decide, by decide, by decide, by decide, by decide⟩

/-- Claim C7 (confirmed): `detect_script` never returns `None` — the early
exit yields a script, and the final `max_by_key` over the 24-slot vector is
always `Some` — and the empty string, like any input whose characters match
no predicate, yields `Some(Khmer)`, the script at the last table index. -/
theorem detect_never_none :
    (∀ (text : List Char) (r : Option Script), DetectExec text r → r ≠ none)
    ∧ detect_script [] = some Script.Khmer
    ∧ (∀ text : List Char, (∀ c ∈ text, scriptsMatching c = []) →
        detect_script text = some Script.Khmer) := by
  refine ⟨?_, by decide, ?_⟩
  · intro text r hr
    obtain ⟨t, _, hrun⟩ := hr
    obtain ⟨s, hs⟩ := runTreeH_isSome (text.length / 2) t
    rw [← hrun]
    show runTreeH (text.length / 2) t ≠ none
    rw [hs]
    simp
  · intro text hall
    have hcl : classify (text.filter (fun c => !is_stop_char c)) = [] := by
      apply classify_eq_nil_of_nomatch
      intro c hc
      exact hall c (List.mem_of_mem_filter hc)
    unfold detect_script
    rw [hcl]
    show (maxIdxLast zeros).map tableScript = some Script.Khmer
    decide

/-- Witness for C7 at a concrete input with the hypotheses discharged. -/
theorem detect_never_none_witness :
    detect_script (String.toList "12") = some Script.Khmer :=
  detect_never_none.2.2 (String.toList "12") (by decide)

/-- Claim C8 (confirmed): after any number of processed elements (the fold
state after `k` steps is the `Ok` value of `foldChunk` on the `k`-element
stream), the slots of the count vector sum to exactly the number of
classified elements, hence at most the number of non-stop characters
processed; and `half` is computed once from the whole text and passed
unchanged to every fold and merge. -/
theorem counts_sum_invariant :
    (∀ (half : Nat) (p : List Script),
        isOkE (foldChunk half zeros p) = true →
        sumCounts (okCounts (foldChunk half zeros p)) = p.length)
    ∧ (∀ (text : List Char) (t : MergeTree),
        ClassifiedRel (text.filter (fun c => !is_stop_char c)) t.flatten →
        isOkE (MergeTree.run (text.length / 2) t) = true →
        sumCounts (okCounts (MergeTree.run (text.length / 2) t))
          ≤ (text.filter (fun c => !is_stop_char c)).length)
    ∧ (∀ (text : List Char) (t : MergeTree), runTree text t = runTreeH (text.length / 2) t) := by
  refine ⟨?_, ?_, fun _ _ => rfl⟩
  · intro half p hok
    cases e : foldChunk half zeros p with
    | error s => rw [e] at hok; simp [isOkE] at hok
    | ok c =>
        show sumCounts c = p.length
        have hc : c = tallyVec p := run_ok_counts (MergeTree.leaf p) half c e
        rw [hc, sumCounts_tallyVec]
  · intro text t hrel hok
    cases e : MergeTree.run (text.length / 2) t with
    | error s => rw [e] at hok; simp [isOkE] at hok
    | ok c =>
        show sumCounts c ≤ _
        have hc := run_ok_counts t _ _ e
        rw [hc, sumCounts_tallyVec]
        exact classifiedRel_length hrel

/-- Witness for C8 at a concrete input with the hypotheses discharged. -/
theorem counts_sum_invariant_witness :
    sumCounts (okCounts (foldChunk 2 zeros [Script.Latin, Script.Cyrillic]))
      = [Script.Latin, Script.Cyrillic].length :=
  counts_sum_invariant.1 2 [Script.Latin, Script.Cyrillic] (by decide)

/-- Claim C9 (confirmed): the early-exit threshold is the total character
count of the whole input — stop characters included — divided by two with
integer division, fixed before filtering and passed as the single global
threshold of the run; and `detect_script` is exactly such a run. -/
theorem half_from_total_count :
    ∀ (text : List Char) (t : MergeTree),
      runTree text t
        = runTreeH (((text.filter (fun c => is_stop_char c)).length
            + (text.filter (fun c => !is_stop_char c)).length) / 2) t
      ∧ detect_script text
        = runTree text (MergeTree.leaf (classify (text.filter (fun c => !is_stop_char c)))) := by
  intro text t
  refine ⟨?_, rfl⟩
  unfold runTree
  rw [length_filter_split]

/-- Claim C10 (confirmed): `Script::name` is a total match returning the fixed
English display name, equal to the script's identifier for every one of the
24 scripts. -/
theorem script_name_total_fixed :
    (∀ s : Script, Script.name s = specDisplayName s)
    ∧ Script.name Script.Cyrillic = "Cyrillic"
    ∧ Script.name Script.Katakana = "Katakana" := by
  refine ⟨?_, rfl, rfl⟩
  intro s
  cases s <;> rfl

end Whatlang
